import Mathlib

/-!
# Verification of the Claxon FLAC decoder front end (`src/lib.rs`)

This file gives a shallow embedding, in Lean 4, of the public front end of
the Claxon FLAC decoder: the stream-header check (`read_stream_header`), the
reader constructor (`FlacReader::new`), the stream-info accessor, and the
high-level channel-interleaving sample iterator (`FlacSamples::next`).

The crate modules `frame`, `metadata`, `sample` and `input` are consumed by
`lib.rs` through their interfaces only; where a definition below models one
of those interfaces rather than translating code, its doc comment says so
and names the specification text it follows.

Machine integers are modelled as `Nat`/`Int`.  The counters of the sample
iterator are `u16`/`u8` in the source, but the source compares them against
`Block::len()`/`Block::channels()` immediately after each increment, and a
FLAC block has at most `2^16 - 1` samples and at most 8 channels, so no
wrap-around is reachable and `Nat` is a faithful model.
-/

namespace Claxon

/-- The error kinds of the decoder, after `error.rs` (not under `src/`) and
§7 of the specification: I/O failure, unexpected end of input, format
violation (with a message, as produced by `fmt_err`), and width mismatch. -/
inductive Error where
  | ioError : Error
  | endOfInput : Error
  | formatViolation : String → Error
  | widthMismatch : Error
deriving DecidableEq, Repr

/-- `Except` mirrors the `Result` type of the source; equality of results is
decidable when it is on both components. -/
instance {ε α : Type} [DecidableEq ε] [DecidableEq α] : DecidableEq (Except ε α)
  | .ok a, .ok b =>
      if h : a = b then .isTrue (by rw [h])
      else .isFalse (fun hc => h (by cases hc; rfl))
  | .ok _, .error _ => .isFalse (fun hc => Except.noConfusion hc)
  | .error _, .ok _ => .isFalse (fun hc => Except.noConfusion hc)
  | .error e, .error f =>
      if h : e = f then .isTrue (by rw [h])
      else .isFalse (fun hc => h (by cases hc; rfl))

/-- Modelled from the spec: `frame.rs` is not under `src/`.  A `Block` is an
"owned, reusable buffer holding one frame's fully reconstructed samples,
organized as one sequence per channel, each of length = frame's block size".
`buf` names the identity of the backing storage, so that buffer reuse across
iterations ("ownership returned to the Frame Reader between iterations so
its backing storage can be recycled instead of reallocated") is observable. -/
structure Block where
  size : Nat
  chans : List (List Int)
  buf : Nat
deriving DecidableEq, Repr

/-- `Block::channels`: the number of channels of the block. -/
def Block.channels (b : Block) : Nat := b.chans.length

/-- `Block::sample(channel, sample)`: `none` models the out-of-bounds panic
of indexing the backing storage outside the decoded region. -/
def Block.sample? (b : Block) (ch i : Nat) : Option Int :=
  (b.chans[ch]?).bind (fun l => l[i]?)

/-- `Block::empty()`: the zero-length block a fresh iterator starts with;
its backing vector is empty (`buf = 0` names the trivial storage). -/
def Block.empty : Block := ⟨0, [], 0⟩

/-- Structural invariant of a decoded block: every channel sequence has
length equal to the block size.  In the source the block is one contiguous
buffer of `channels * size` samples, so this holds by construction. -/
def Block.WF (b : Block) : Prop := ∀ l ∈ b.chans, l.length = b.size

instance (b : Block) : Decidable b.WF :=
  inferInstanceAs (Decidable (∀ l ∈ b.chans, l.length = b.size))

/-- A block as the frame reader hands it out: well-formed, with at least one
sample and at least one channel (a decoded FLAC frame always has both). -/
def Block.valid (b : Block) : Prop := b.WF ∧ 0 < b.size ∧ 0 < b.channels

instance (b : Block) : Decidable b.valid := inferInstanceAs (Decidable (_ ∧ _))

/-- Modelled from the spec: `frame.rs` is not under `src/`.  The frame
reader is represented by the sequence of decode outcomes it will produce
(`outcomes`), together with the width of the caller-chosen storage type `S`
(`sampleWidth`) and the stream's bit depth (`bitsPerSample`).  Per the
specification, "if too narrow, every decode attempt fails with a
width-mismatch error rather than silently truncating".  `heldBuf` records
the buffer the reader reclaimed on an error exit, per the design note "the
orchestrator lends its buffer to the reconstruction step and reclaims it on
every exit path, including error paths". -/
structure FrameReader where
  sampleWidth : Nat
  bitsPerSample : Nat
  outcomes : List (Except Error Block)
  heldBuf : Option Nat
deriving DecidableEq, Repr

/-- Modelled from the spec: `FrameReader::read_next(buffer)` decodes the
next frame into the buffer handed in.  On success the produced block reuses
that storage; on any error exit the reader keeps the buffer; past the last
frame the read fails with an end-of-input error. -/
def FrameReader.read_next (fr : FrameReader) (buf : Nat) :
    Except Error Block × FrameReader :=
  if fr.sampleWidth < fr.bitsPerSample then
    (.error .widthMismatch, { fr with heldBuf := some buf })
  else
    match fr.outcomes with
    | [] => (.error .endOfInput, { fr with heldBuf := some buf })
    | .ok b :: rest => (.ok { b with buf := buf }, { fr with outcomes := rest })
    | .error e :: rest =>
        (.error e, { fr with outcomes := rest, heldBuf := some buf })

/-- The state of `FlacSamples` (`lib.rs`, lines 57–66): the frame reader, the
current block, the `(sample, channel)` cursor and the poison flag. -/
structure FlacSamples where
  frame_reader : FrameReader
  block : Block
  sample : Nat
  channel : Nat
  has_failed : Bool
deriving DecidableEq, Repr

/-- One observable outcome of `FlacSamples::next`: `yield v` models
`Some(v)`, `done` models `None`, and `panic` models the out-of-bounds panic
of `Block::sample`. -/
inductive StepResult where
  | yield (v : Except Error Int)
  | done
  | panic
deriving DecidableEq, Repr

/-- The final expression of `FlacSamples::next`:
`Some(Ok(self.block.sample(self.channel, self.sample)))`, at cursor
`(c, i)`. -/
def FlacSamples.yieldAt (s : FlacSamples) (c i : Nat) :
    StepResult × FlacSamples :=
  match s.block.sample? c i with
  | some v => (.yield (.ok v), { s with channel := c, sample := i })
  | none => (.panic, { s with channel := c, sample := i })

/-- `FlacSamples::next` (`lib.rs`, lines 188–225), translated branch for
branch: return `None` when poisoned; increment the channel; on wrap-around
increment the sample index; on block exhaustion hand the current block's
buffer to `read_next` and either install the next block or poison the
iterator; finally yield `block.sample(channel, sample)`. -/
def FlacSamples.next (s : FlacSamples) : StepResult × FlacSamples :=
  if s.has_failed then (.done, s)
  else
    let c1 := s.channel + 1
    if c1 ≥ s.block.channels then
      let i1 := s.sample + 1
      if i1 ≥ s.block.size then
        match s.frame_reader.read_next s.block.buf with
        | (.ok b, fr') =>
            FlacSamples.yieldAt
              { s with frame_reader := fr', block := b, channel := 0, sample := 0 } 0 0
        | (.error e, fr') =>
            (.yield (.error e),
             { s with frame_reader := fr', block := Block.empty,
                      channel := 0, sample := 0, has_failed := true })
      else
        FlacSamples.yieldAt s 0 i1
    else
      FlacSamples.yieldAt s c1 s.sample

/-- Iterate `next` a given number of times, collecting the outcomes. -/
def FlacSamples.nextN (s : FlacSamples) : Nat → List StepResult × FlacSamples
  | 0 => ([], s)
  | n + 1 =>
      (s.next.fst :: (s.next.snd.nextN n).fst, (s.next.snd.nextN n).snd)

/-- The initial state built by `FlacReader::samples` (`lib.rs`, lines
161–169), with the frame reader abstracted: empty block, cursor `(0, 0)`,
not poisoned. -/
def flacSamplesNew (fr : FrameReader) : FlacSamples :=
  { frame_reader := fr, block := Block.empty, sample := 0, channel := 0,
    has_failed := false }

/-- The samples of one sample index `i` of a block, in ascending channel
order. -/
def Block.row (b : Block) (i : Nat) : List Int :=
  (List.range' 0 b.channels).map (fun c => (b.sample? c i).getD 0)

/-- The channel-interleaved samples of a block: for each sample index in
ascending order, for each channel in ascending order, `sample(c, i)`. -/
def Block.interleaved (b : Block) : List Int :=
  (List.range' 0 b.size).flatMap (fun i => b.row i)

/-- The interleaved samples of a sequence of blocks, block by block. -/
def interleaveAll : List Block → List Int
  | [] => []
  | b :: bs => b.interleaved ++ interleaveAll bs

/-- The number of interleaved samples carried by a sequence of blocks. -/
def totalLen (blocks : List Block) : Nat :=
  (blocks.map (fun b => b.channels * b.size)).sum

/-- The interleaved samples of block `b` strictly after cursor position
(sample `i`, channel `c`): the rest of row `i`, then all later rows. -/
def Block.tailFrom (b : Block) (i c : Nat) : List Int :=
  ((List.range' (c + 1) (b.channels - (c + 1))).map
      (fun c' => (b.sample? c' i).getD 0))
    ++ (List.range' (i + 1) (b.size - (i + 1))).flatMap (fun i' => b.row i')

/-- The cursor of the iterator has exhausted the current block: the next
channel increment wraps and the next sample increment leaves the block. -/
def FlacSamples.exhausted (s : FlacSamples) : Prop :=
  s.block.channels ≤ s.channel + 1 ∧ s.block.size ≤ s.sample + 1

instance (s : FlacSamples) : Decidable s.exhausted :=
  inferInstanceAs (Decidable (_ ∧ _))

/-- A frame-reader outcome as FLAC decoding can actually produce it: a
successfully decoded block is well-formed and nonempty in both dimensions
(a FLAC frame always carries at least one sample for at least one
channel). -/
def goodOutcome : Except Error Block → Prop
  | .ok b => b.valid
  | .error _ => True

instance (o : Except Error Block) : Decidable (goodOutcome o) := by
  unfold goodOutcome
  cases o <;> infer_instance

/-- All pending outcomes of the frame reader are `goodOutcome`s. -/
def FrameReader.goodScript (fr : FrameReader) : Prop :=
  ∀ o ∈ fr.outcomes, goodOutcome o

instance (fr : FrameReader) : Decidable fr.goodScript :=
  inferInstanceAs (Decidable (∀ o ∈ fr.outcomes, goodOutcome o))

/-- The states reachable by the sample iterator: either poisoned, or the
cursor points at the sample yielded last inside a well-formed block, or the
iterator still holds the initial empty block with cursor `(0, 0)`. -/
def FlacSamples.Safe (s : FlacSamples) : Prop :=
  s.frame_reader.goodScript ∧
  (s.has_failed = true
   ∨ (s.channel < s.block.channels ∧ s.sample < s.block.size ∧ s.block.WF)
   ∨ (s.block.channels = 0 ∧ s.block.size = 0 ∧ s.channel = 0 ∧ s.sample = 0))

instance (s : FlacSamples) : Decidable s.Safe :=
  inferInstanceAs (Decidable (_ ∧ _))

/-! ### The byte-level layer: stream header, metadata and `FlacReader::new`

Input bytes are modelled as `List Nat`, each entry denoting one byte
(`< 256`). -/

/-- Modelled from the spec: `input.rs` is not under `src/`.  `read_be_u32`
reads a big-endian 32-bit integer, failing with an end-of-input error when
fewer than four bytes remain ("all reads fail with an end-of-stream error if
the underlying source is exhausted mid-field"). -/
def read_be_u32 : List Nat → Except Error (Nat × List Nat)
  | b0 :: b1 :: b2 :: b3 :: rest =>
      .ok (((b0 * 256 + b1) * 256 + b2) * 256 + b3, rest)
  | _ => .error .endOfInput

/-- `read_stream_header` (`lib.rs`, lines 70–79): read a big-endian `u32`
and require it to equal the fixed header `0x66_4c_61_43` (`fLaC`), failing
with the format error `invalid stream header` otherwise. -/
def read_stream_header (input : List Nat) : Except Error (List Nat) :=
  match read_be_u32 input with
  | .error e => .error e
  | .ok (header, rest) =>
      if header ≠ 0x664c6143 then .error (.formatViolation "invalid stream header")
      else .ok rest

/-- The stream-info metadata, after `metadata.rs` (not under `src/`) and §3
of the specification; the field names `samples`, `channels`, `sample_rate`
and `bits_per_sample` follow the uses in `src/bin/decode.rs`. -/
structure StreamInfo where
  min_block_size : Nat
  max_block_size : Nat
  min_frame_size : Nat
  max_frame_size : Nat
  sample_rate : Nat
  channels : Nat
  bits_per_sample : Nat
  samples : Option Nat
  md5 : Nat
deriving DecidableEq, Repr

/-- Bit `i` of a byte sequence, most-significant bit of each byte first. -/
def bitAt (bytes : List Nat) (i : Nat) : Nat :=
  (bytes[i / 8]?).getD 0 / 2 ^ (7 - i % 8) % 2

/-- The `n`-bit big-endian packed field starting at bit offset `off`. -/
def bitsAt (bytes : List Nat) (off : Nat) : Nat → Nat
  | 0 => 0
  | n + 1 => bitsAt bytes off n * 2 + bitAt bytes (off + n)

/-- Modelled from the spec: `metadata.rs` is not under `src/`.  The
stream-info body is a fixed packed-field layout: min/max block size (16+16
bits), min/max frame size (24+24), sample rate (20), channel count minus one
(3), bit depth minus one (5), 36-bit total sample count, 128-bit checksum;
"total-sample-count of zero is reinterpreted as unknown, not zero-length". -/
def readStreamInfoBody (body : List Nat) : Except Error StreamInfo :=
  if body.length < 34 then .error .endOfInput
  else
    .ok { min_block_size := bitsAt body 0 16
          max_block_size := bitsAt body 16 16
          min_frame_size := bitsAt body 32 24
          max_frame_size := bitsAt body 56 24
          sample_rate := bitsAt body 80 20
          channels := bitsAt body 100 3 + 1
          bits_per_sample := bitsAt body 103 5 + 1
          samples := if bitsAt body 108 36 = 0 then none
                     else some (bitsAt body 108 36)
          md5 := bitsAt body 144 128 }

/-- A parsed metadata block: the mandatory stream-info block (type code 0),
or any other block kept as its raw body ("pure pass-through parsing"). -/
inductive MetadataBlock where
  | streamInfo (si : StreamInfo)
  | other (blockType : Nat) (body : List Nat)
deriving DecidableEq, Repr

/-- Modelled from the spec: `metadata.rs` is not under `src/`.  One step of
`MetadataBlockReader`: a block starts with a 1-bit last-block flag, a 7-bit
block-type code and a 24-bit big-endian body length; code 0 is stream-info;
missing bytes are an end-of-input error. -/
def readMetadataBlock (bytes : List Nat) :
    Except Error (Bool × MetadataBlock × List Nat) :=
  match bytes with
  | hb :: l0 :: l1 :: l2 :: rest =>
      let isLast := 128 ≤ hb
      let btype := hb % 128
      let len := (l0 * 256 + l1) * 256 + l2
      if rest.length < len then .error .endOfInput
      else if btype = 0 then
        match readStreamInfoBody (rest.take len) with
        | .error e => .error e
        | .ok si => .ok (isLast, .streamInfo si, rest.drop len)
      else .ok (isLast, .other btype (rest.take len), rest.drop len)
  | _ => .error .endOfInput

/-- The metadata loop of `FlacReader::new` (`lib.rs`, lines 103–110): read
and store every remaining metadata block, stopping after the block that
carries the last-block flag; any block error aborts with that error.  The
fuel argument only serves termination; each block consumes at least four
bytes, so the byte count is always sufficient fuel. -/
def readRestBlocks : Nat → List Nat → Except Error (List MetadataBlock × List Nat)
  | 0, _ => .error .endOfInput
  | fuel + 1, bytes =>
      match readMetadataBlock bytes with
      | .error e => .error e
      | .ok (isLast, blk, rest) =>
          if isLast then .ok ([blk], rest)
          else
            match readRestBlocks fuel rest with
            | .error e => .error e
            | .ok (blks, rest') => .ok (blk :: blks, rest')

/-- The state of a constructed `FlacReader` (`lib.rs`, lines 46–51): the
stream info parsed at construction, the stored later metadata blocks, and
the remaining input (the audio frames, read on demand).  The projection
`FlacReader.streaminfo` is the accessor of `lib.rs`, lines 125–130. -/
structure FlacReader where
  streaminfo : StreamInfo
  metadata_blocks : List MetadataBlock
  input : List Nat
deriving DecidableEq, Repr

/-- `FlacReader::new` (`lib.rs`, lines 86–123): check the stream header,
read the first metadata block, require it to be stream-info (else the
format error `streaminfo block missing`), read and store all remaining
metadata blocks, then construct the reader around the remaining input. -/
def FlacReader.new (bytes : List Nat) : Except Error FlacReader :=
  match read_stream_header bytes with
  | .error e => .error e
  | .ok rest =>
      match readMetadataBlock rest with
      | .error e => .error e
      | .ok (isLast, first, rest1) =>
          match first with
          | .streamInfo si =>
              if isLast then .ok ⟨si, [], rest1⟩
              else
                match readRestBlocks rest1.length rest1 with
                | .error e => .error e
                | .ok (blks, rest2) => .ok ⟨si, blks, rest2⟩
          | .other _ _ => .error (.formatViolation "streaminfo block missing")

/-- The operations a consumer can perform on a constructed `FlacReader`:
querying the stream info (`streaminfo()`), and any amount of decoding
through `blocks()` or `samples()`, which borrow and advance only the
`input` field — modelled as an arbitrary transformation of the remaining
input bytes. -/
inductive ReaderOp where
  | queryStreaminfo : ReaderOp
  | decode : (List Nat → List Nat) → ReaderOp

/-- Effect of one `ReaderOp` on the reader state. -/
def applyOp (r : FlacReader) : ReaderOp → FlacReader
  | .queryStreaminfo => r
  | .decode f => { r with input := f r.input }

/-! ### Encoders for metadata blocks (specification side, §6 of the spec) -/

/-- The 4-byte header of a metadata block: one byte holding the last-block
flag (bit 7) and the block-type code (bits 6–0), then the 24-bit big-endian
body length. -/
def encodeBlockHeader (isLast : Bool) (btype len : Nat) : List Nat :=
  [(if isLast then 128 else 0) + btype,
   len / 65536 % 256, len / 256 % 256, len % 256]

/-- A whole non-stream-info metadata block: header then raw body. -/
def encodeOther (isLast : Bool) (btype : Nat) (body : List Nat) : List Nat :=
  encodeBlockHeader isLast btype body.length ++ body

/-- A chain of pass-through metadata blocks, the last one carrying the
last-block flag. -/
def encodeRestLast : List (Nat × List Nat) → List Nat
  | [] => []
  | [(t, body)] => encodeOther true t body
  | (t, body) :: blks => encodeOther false t body ++ encodeRestLast blks

/-- A chain of pass-through metadata blocks, none carrying the last-block
flag. -/
def encodeChainNL : List (Nat × List Nat) → List Nat
  | [] => []
  | (t, body) :: blks => encodeOther false t body ++ encodeChainNL blks

/-- Well-formed pass-through block descriptions: a nonzero 7-bit type code
and a body that fits the 24-bit length field. -/
def wfMeta (blks : List (Nat × List Nat)) : Prop :=
  ∀ p ∈ blks, 1 ≤ p.fst ∧ p.fst < 128 ∧ p.snd.length < 2 ^ 24

instance (blks : List (Nat × List Nat)) : Decidable (wfMeta blks) :=
  inferInstanceAs (Decidable (∀ p ∈ blks, _ ∧ _ ∧ _))

/-- The four signature bytes `fLaC`. -/
def sigBytes : List Nat := [0x66, 0x4c, 0x61, 0x43]

/-! ### Concrete data used by the witness theorems -/

/-- A 2-channel block of two samples. -/
def wb1 : Block := ⟨2, [[1, 2], [3, 4]], 0⟩

/-- A 2-channel block of one sample. -/
def wb2 : Block := ⟨1, [[5], [6]], 0⟩

/-- A stream-info body (34 bytes) declaring 2 channels, 16 bits per sample
and 3 total samples. -/
def wsiBody : List Nat :=
  [16, 0, 16, 0, 0, 0, 16, 0, 0, 16,
   0x0a, 0xc4, 0x42, 0xf0, 0, 0, 0, 3,
   0, 0, 0, 0, 0, 0, 0, 0, 0, 0, 0, 0, 0, 0, 0, 0]

section SpecListLemmas

/-- Inside a well-formed block the sample lookup succeeds on any in-bounds
cursor. -/
theorem Block.sample?_eq_some (b : Block) (hw : b.WF) {c i : Nat}
    (hc : c < b.channels) (hi : i < b.size) :
    b.sample? c i = some ((b.sample? c i).getD 0) := by
  unfold Block.sample?
  have hc' : c < b.chans.length := hc
  rw [List.getElem?_eq_getElem hc']
  have hlen : b.chans[c].length = b.size := hw _ (List.getElem_mem hc')
  have hi' : i < b.chans[c].length := by rw [hlen]; exact hi
  show b.chans[c][i]? = some (b.chans[c][i]?.getD 0)
  rw [List.getElem?_eq_getElem hi']
  rfl

/-- Splitting the first channel off a row of a block with at least one
channel. -/
theorem Block.row_eq_cons (b : Block) (i : Nat) (hc : 0 < b.channels) :
    b.row i = (b.sample? 0 i).getD 0 ::
      (List.range' 1 (b.channels - 1)).map (fun c => (b.sample? c i).getD 0) := by
  unfold Block.row
  have h2 : b.channels = (b.channels - 1) + 1 := by omega
  conv_lhs => rw [h2, List.range'_succ]
  simp

/-- `sample?` does not read the buffer identity. -/
theorem Block.sample?_setBuf (b : Block) (x c i : Nat) :
    Block.sample? { b with buf := x } c i = b.sample? c i := rfl

theorem Block.tailFrom_chan_step (b : Block) (i c : Nat)
    (h : c + 1 < b.channels) :
    b.tailFrom i c = (b.sample? (c + 1) i).getD 0 :: b.tailFrom i (c + 1) := by
  unfold Block.tailFrom
  have h1 : b.channels - (c + 1) = (b.channels - (c + 2)) + 1 := by omega
  rw [h1, List.range'_succ]
  simp

theorem Block.tailFrom_row_step (b : Block) (i c : Nat)
    (hc : b.channels = c + 1) (hi : i + 1 < b.size) :
    b.tailFrom i c = (b.sample? 0 (i + 1)).getD 0 :: b.tailFrom (i + 1) 0 := by
  have h0 : b.channels - (c + 1) = 0 := by omega
  have h1 : b.size - (i + 1) = (b.size - (i + 2)) + 1 := by omega
  unfold Block.tailFrom
  rw [h0, h1, List.range'_succ, List.flatMap_cons,
    Block.row_eq_cons b (i + 1) (by omega)]
  simp

theorem Block.tailFrom_last (b : Block) :
    b.tailFrom (b.size - 1) (b.channels - 1) = [] := by
  unfold Block.tailFrom
  have h0 : b.channels - (b.channels - 1 + 1) = 0 := by omega
  have h1 : b.size - (b.size - 1 + 1) = 0 := by omega
  rw [h0, h1]
  simp

theorem Block.interleaved_eq_cons (b : Block) (hs : 0 < b.size)
    (hc : 0 < b.channels) :
    b.interleaved = (b.sample? 0 0).getD 0 :: b.tailFrom 0 0 := by
  have h1 : b.size = (b.size - 1) + 1 := by omega
  unfold Block.interleaved
  conv_lhs => rw [h1, List.range'_succ]
  rw [List.flatMap_cons, Block.row_eq_cons b 0 hc]
  unfold Block.tailFrom
  simp

/-- The interleaved sequence of a block has `channels * size` entries. -/
theorem Block.length_interleaved (b : Block) :
    b.interleaved.length = b.channels * b.size := by
  unfold Block.interleaved Block.row
  rw [List.length_flatMap]
  simp [Function.comp_def, List.map_const', Nat.mul_comm]

end SpecListLemmas

section StepLemmas

theorem FlacSamples.next_of_failed (s : FlacSamples)
    (hf : s.has_failed = true) : s.next = (.done, s) := by
  unfold FlacSamples.next
  rw [hf]
  rfl

theorem FlacSamples.next_mid_channel (s : FlacSamples)
    (hf : s.has_failed = false) (h : s.channel + 1 < s.block.channels) :
    s.next = s.yieldAt (s.channel + 1) s.sample := by
  unfold FlacSamples.next
  rw [hf]
  simp only [Bool.false_eq_true, if_false]
  rw [if_neg (by omega)]

theorem FlacSamples.next_mid_row (s : FlacSamples)
    (hf : s.has_failed = false) (hc : s.block.channels ≤ s.channel + 1)
    (hs : s.sample + 1 < s.block.size) :
    s.next = s.yieldAt 0 (s.sample + 1) := by
  unfold FlacSamples.next
  rw [hf]
  simp only [Bool.false_eq_true, if_false]
  rw [if_pos hc, if_neg (by omega)]

theorem FlacSamples.next_transition (s : FlacSamples)
    (hf : s.has_failed = false) (hc : s.block.channels ≤ s.channel + 1)
    (hs : s.block.size ≤ s.sample + 1) :
    s.next = match s.frame_reader.read_next s.block.buf with
      | (.ok b, fr') =>
          FlacSamples.yieldAt
            { s with frame_reader := fr', block := b,
                     channel := 0, sample := 0 } 0 0
      | (.error e, fr') =>
          (.yield (.error e),
           { s with frame_reader := fr', block := Block.empty,
                    channel := 0, sample := 0, has_failed := true }) := by
  unfold FlacSamples.next
  rw [hf]
  simp only [Bool.false_eq_true, if_false]
  rw [if_pos hc, if_pos hs]

theorem FrameReader.read_next_width (fr : FrameReader) (buf : Nat)
    (h : fr.sampleWidth < fr.bitsPerSample) :
    fr.read_next buf = (.error .widthMismatch, { fr with heldBuf := some buf }) := by
  unfold FrameReader.read_next
  rw [if_pos h]

theorem FrameReader.read_next_nil (fr : FrameReader) (buf : Nat)
    (hw : ¬ fr.sampleWidth < fr.bitsPerSample) (h : fr.outcomes = []) :
    fr.read_next buf = (.error .endOfInput, { fr with heldBuf := some buf }) := by
  unfold FrameReader.read_next
  rw [if_neg hw, h]

theorem FrameReader.read_next_ok (fr : FrameReader) (buf : Nat) (b : Block)
    (rest : List (Except Error Block))
    (hw : ¬ fr.sampleWidth < fr.bitsPerSample)
    (h : fr.outcomes = .ok b :: rest) :
    fr.read_next buf
      = (.ok { b with buf := buf }, { fr with outcomes := rest }) := by
  unfold FrameReader.read_next
  rw [if_neg hw, h]

theorem FrameReader.read_next_err (fr : FrameReader) (buf : Nat) (e : Error)
    (rest : List (Except Error Block))
    (hw : ¬ fr.sampleWidth < fr.bitsPerSample)
    (h : fr.outcomes = .error e :: rest) :
    fr.read_next buf
      = (.error e, { fr with outcomes := rest, heldBuf := some buf }) := by
  unfold FrameReader.read_next
  rw [if_neg hw, h]

theorem FlacSamples.yieldAt_wf (s : FlacSamples) (c i : Nat)
    (hw : s.block.WF) (hc : c < s.block.channels) (hi : i < s.block.size) :
    s.yieldAt c i = (.yield (.ok ((s.block.sample? c i).getD 0)),
                     { s with channel := c, sample := i }) := by
  unfold FlacSamples.yieldAt
  rw [Block.sample?_eq_some s.block hw hc hi]
  rfl

end StepLemmas

section RunLemmas

theorem Block.channels_setBuf (b : Block) (x : Nat) :
    ({ b with buf := x } : Block).channels = b.channels := rfl

theorem Block.WF_setBuf (b : Block) (x : Nat) :
    ({ b with buf := x } : Block).WF ↔ b.WF := Iff.rfl

theorem Block.interleaved_setBuf (b : Block) (x : Nat) :
    ({ b with buf := x } : Block).interleaved = b.interleaved := rfl

theorem Block.tailFrom_setBuf (b : Block) (x i c : Nat) :
    ({ b with buf := x } : Block).tailFrom i c = b.tailFrom i c := rfl

theorem FlacSamples.nextN_add (s : FlacSamples) (m n : Nat) :
    s.nextN (m + n)
      = ((s.nextN m).fst ++ ((s.nextN m).snd.nextN n).fst,
         ((s.nextN m).snd.nextN n).snd) := by
  induction m generalizing s with
  | zero => simp [FlacSamples.nextN]
  | succ m ih =>
      have h : m + 1 + n = (m + n) + 1 := by omega
      rw [h]
      simp only [FlacSamples.nextN, ih, List.cons_append]

/-- Running the iterator from a mid-block cursor up to the end of the block:
it yields the remaining samples of the block in channel-interleaved order and
neither touches the frame reader nor replaces the block. -/
theorem nextN_inblock (n : Nat) : ∀ (fr : FrameReader) (b : Block) (i c : Nat),
    b.WF → c < b.channels → i < b.size →
    b.channels * (b.size - i) = n + (c + 1) →
    FlacSamples.nextN ⟨fr, b, i, c, false⟩ n
      = ((b.tailFrom i c).map (fun v => .yield (.ok v)),
         ⟨fr, b, b.size - 1, b.channels - 1, false⟩) := by
  induction n with
  | zero =>
      intro fr b i c hw hc hi hm
      have hK : 0 < b.channels := by omega
      have hle : b.channels * (b.size - i) ≤ b.channels * 1 := by
        rw [Nat.mul_one]; omega
      have hD1 : b.size - i = 1 := by
        have := Nat.le_of_mul_le_mul_left hle hK
        omega
      rw [hD1, Nat.mul_one] at hm
      have hieq : i = b.size - 1 := by omega
      have hceq : c = b.channels - 1 := by omega
      subst hieq hceq
      simp [FlacSamples.nextN, Block.tailFrom_last]
  | succ n ih =>
      intro fr b i c hw hc hi hm
      by_cases hcc : c + 1 < b.channels
      · have hnext : (⟨fr, b, i, c, false⟩ : FlacSamples).next
            = (.yield (.ok ((b.sample? (c + 1) i).getD 0)),
               ⟨fr, b, i, c + 1, false⟩) := by
          rw [FlacSamples.next_mid_channel _ rfl hcc]
          exact FlacSamples.yieldAt_wf _ _ _ hw hcc hi
        simp only [FlacSamples.nextN, hnext]
        rw [ih fr b i (c + 1) hw hcc hi (by omega)]
        rw [Block.tailFrom_chan_step b i c hcc]
        simp
      · have hceq : b.channels = c + 1 := by omega
        by_cases hii : i + 1 < b.size
        · have hnext : (⟨fr, b, i, c, false⟩ : FlacSamples).next
              = (.yield (.ok ((b.sample? 0 (i + 1)).getD 0)),
                 ⟨fr, b, i + 1, 0, false⟩) := by
            rw [FlacSamples.next_mid_row _ rfl
              (show b.channels ≤ c + 1 by omega)
              (show i + 1 < b.size from hii)]
            exact FlacSamples.yieldAt_wf _ _ _ hw
              (show 0 < b.channels by omega) hii
          have hm' : b.channels * (b.size - (i + 1)) = n + 1 := by
            have hd : b.size - i = (b.size - (i + 1)) + 1 := by omega
            rw [hd, Nat.mul_succ] at hm
            omega
          simp only [FlacSamples.nextN, hnext]
          rw [ih fr b (i + 1) 0 hw (by omega) hii (by omega)]
          rw [Block.tailFrom_row_step b i c hceq hii]
          simp
        · exfalso
          have hD1 : b.size - i = 1 := by omega
          rw [hD1, Nat.mul_one] at hm
          omega

/-- Running the iterator for one whole block: from an exhausted cursor, with
the frame reader about to deliver `b`, the next `channels * size` calls yield
exactly the interleaved samples of `b`, reusing the old block's buffer. -/
theorem nextN_one_block (s : FlacSamples) (b : Block)
    (rest : List (Except Error Block))
    (hf : s.has_failed = false) (hex : s.exhausted)
    (hwid : s.frame_reader.bitsPerSample ≤ s.frame_reader.sampleWidth)
    (ho : s.frame_reader.outcomes = .ok b :: rest)
    (hv : b.valid) :
    s.nextN (b.channels * b.size)
      = (b.interleaved.map (fun v => .yield (.ok v)),
         ⟨{ s.frame_reader with outcomes := rest },
          { b with buf := s.block.buf }, b.size - 1, b.channels - 1, false⟩) := by
  obtain ⟨hbw, hbs, hbc⟩ := hv
  obtain ⟨⟨sw, bps, outs, hb⟩, b0, i0, c0, f0⟩ := s
  obtain rfl : f0 = false := hf
  obtain rfl : outs = .ok b :: rest := ho
  have hwid' : bps ≤ sw := hwid
  have hex1 : b0.channels ≤ c0 + 1 := hex.1
  have hex2 : b0.size ≤ i0 + 1 := hex.2
  have hpos : 0 < b.channels * b.size := Nat.mul_pos hbc hbs
  have hsplit : b.channels * b.size = (b.channels * b.size - 1) + 1 := by omega
  have hread : FrameReader.read_next ⟨sw, bps, .ok b :: rest, hb⟩ b0.buf
      = (.ok { b with buf := b0.buf }, ⟨sw, bps, rest, hb⟩) :=
    FrameReader.read_next_ok _ _ b rest (by show ¬ sw < bps; omega) rfl
  have hnext :
      FlacSamples.next ⟨⟨sw, bps, .ok b :: rest, hb⟩, b0, i0, c0, false⟩
      = (.yield (.ok ((b.sample? 0 0).getD 0)),
         ⟨⟨sw, bps, rest, hb⟩, { b with buf := b0.buf }, 0, 0, false⟩) := by
    rw [FlacSamples.next_transition _ rfl
      (show b0.channels ≤ c0 + 1 from hex1)
      (show b0.size ≤ i0 + 1 from hex2)]
    rw [show (⟨⟨sw, bps, .ok b :: rest, hb⟩, b0, i0, c0, false⟩ :
        FlacSamples).frame_reader.read_next b0.buf
      = (.ok { b with buf := b0.buf }, ⟨sw, bps, rest, hb⟩) from hread]
    show FlacSamples.yieldAt
      ⟨⟨sw, bps, rest, hb⟩, { b with buf := b0.buf }, 0, 0, false⟩ 0 0 = _
    rw [FlacSamples.yieldAt_wf _ 0 0
      (show b.WF from hbw) (show 0 < b.channels from hbc)
      (show 0 < b.size from hbs)]
    rfl
  rw [hsplit]
  simp only [FlacSamples.nextN, hnext]
  rw [nextN_inblock (b.channels * b.size - 1)
    ⟨sw, bps, rest, hb⟩ { b with buf := b0.buf }
    0 0 (show b.WF from hbw) (show 0 < b.channels from hbc)
    (show 0 < b.size from hbs)
    (by show b.channels * (b.size - 0) = _; rw [Nat.sub_zero]; omega)]
  rw [Block.tailFrom_setBuf, Block.interleaved_eq_cons b hbs hbc]
  simp [Block.channels_setBuf]

/-- Running the iterator over a chain of successfully decoded blocks: the
outputs are the interleaved samples of the blocks in order; afterwards the
frame reader holds exactly the not-yet-requested outcomes, the cursor is
exhausted again, and the block buffer is still the one the iterator started
with. -/
theorem nextN_chain : ∀ (blocks : List Block)
    (tail : List (Except Error Block)) (s : FlacSamples),
    s.has_failed = false → s.exhausted →
    s.frame_reader.bitsPerSample ≤ s.frame_reader.sampleWidth →
    s.frame_reader.outcomes = blocks.map .ok ++ tail →
    (∀ b ∈ blocks, b.valid) →
    (s.nextN (totalLen blocks)).fst
        = (interleaveAll blocks).map (fun v => .yield (.ok v))
    ∧ (s.nextN (totalLen blocks)).snd.has_failed = false
    ∧ (s.nextN (totalLen blocks)).snd.exhausted
    ∧ (s.nextN (totalLen blocks)).snd.block.buf = s.block.buf
    ∧ (s.nextN (totalLen blocks)).snd.frame_reader
        = { s.frame_reader with outcomes := tail } := by
  intro blocks
  induction blocks with
  | nil =>
      intro tail s hf hex hwid ho _
      simp only [List.map_nil, List.nil_append] at ho
      have hfr : ({ s.frame_reader with outcomes := tail } : FrameReader)
          = s.frame_reader := by
        rw [← ho]
      simp [totalLen, FlacSamples.nextN, interleaveAll, hf, hex, hfr]
  | cons b bs ih =>
      intro tail s hf hex hwid ho hv
      have htot : totalLen (b :: bs) = b.channels * b.size + totalLen bs := by
        simp [totalLen]
      have hone := nextN_one_block s b (bs.map .ok ++ tail) hf hex hwid
        (by rw [ho]; rfl) (hv b (by simp))
      rw [htot, FlacSamples.nextN_add, hone]
      set s1 : FlacSamples :=
        ⟨{ s.frame_reader with outcomes := bs.map .ok ++ tail },
         { b with buf := s.block.buf }, b.size - 1, b.channels - 1, false⟩ with hs1
      have hvb := hv b (by simp)
      have hex1 : s1.exhausted := by
        constructor
        · show ({ b with buf := s.block.buf } : Block).channels ≤ (b.channels - 1) + 1
          rw [Block.channels_setBuf]
          omega
        · show b.size ≤ (b.size - 1) + 1
          omega
      have hrest := ih tail s1 rfl hex1 hwid rfl (fun b' hb' => hv b' (by simp [hb']))
      refine ⟨?_, hrest.2.1, hrest.2.2.1, ?_, ?_⟩
      · rw [hrest.1]
        simp [interleaveAll]
      · rw [hrest.2.2.2.1]
      · rw [hrest.2.2.2.2]

end RunLemmas

section IteratorClaims

theorem FlacSamples.nextN_of_failed (s : FlacSamples)
    (hf : s.has_failed = true) :
    ∀ m, s.nextN m = (List.replicate m .done, s) := by
  intro m
  induction m with
  | zero => simp [FlacSamples.nextN]
  | succ m ih =>
      simp [FlacSamples.nextN, FlacSamples.next_of_failed s hf, ih,
        List.replicate_succ]

theorem FlacSamples.yieldAt_frame_reader (s : FlacSamples) (c i : Nat) :
    (s.yieldAt c i).snd.frame_reader = s.frame_reader := by
  unfold FlacSamples.yieldAt
  cases s.block.sample? c i <;> rfl

theorem FlacSamples.yieldAt_block (s : FlacSamples) (c i : Nat) :
    (s.yieldAt c i).snd.block = s.block := by
  unfold FlacSamples.yieldAt
  cases s.block.sample? c i <;> rfl

theorem FlacSamples.yieldAt_no_error (s : FlacSamples) (c i : Nat) (e : Error) :
    (s.yieldAt c i).fst ≠ .yield (.error e) := by
  unfold FlacSamples.yieldAt
  cases s.block.sample? c i <;> simp

/-- **C2**: once a call to `FlacSamples::next` has returned an error, the
iterator is permanently poisoned: the poison flag is set by that very call,
and every subsequent call returns `None` without changing the state — the
error is returned exactly once and no sample or error is ever yielded
again. -/
theorem flacSamples_error_poisons (s s' : FlacSamples) (e : Error)
    (h : s.next = (.yield (.error e), s')) :
    s'.has_failed = true ∧ ∀ m, s'.nextN m = (List.replicate m .done, s') := by
  have hfail : s'.has_failed = true := by
    rcases hfb : s.has_failed with _ | _
    · by_cases hc : s.block.channels ≤ s.channel + 1
      · by_cases hs2 : s.block.size ≤ s.sample + 1
        · rw [FlacSamples.next_transition s hfb hc hs2] at h
          rcases hr : s.frame_reader.read_next s.block.buf with ⟨res, fr'⟩
          rw [hr] at h
          cases res with
          | ok b =>
              exact absurd (congrArg Prod.fst h)
                (FlacSamples.yieldAt_no_error _ 0 0 e)
          | error e' =>
              have h2 : ({ frame_reader := fr', block := Block.empty,
                           sample := 0, channel := 0, has_failed := true } :
                  FlacSamples) = s' := congrArg Prod.snd h
              rw [← h2]
        · rw [FlacSamples.next_mid_row s hfb hc (by omega)] at h
          exact absurd (congrArg Prod.fst h)
            (FlacSamples.yieldAt_no_error _ _ _ e)
      · rw [FlacSamples.next_mid_channel s hfb (by omega)] at h
        exact absurd (congrArg Prod.fst h)
          (FlacSamples.yieldAt_no_error _ _ _ e)
    · rw [FlacSamples.next_of_failed s hfb] at h
      simp at h
  exact ⟨hfail, FlacSamples.nextN_of_failed s' hfail⟩

/-- Witness for C2 at a concrete iterator: the first call on an empty
frame script yields the end-of-input error, and the iterator is poisoned
afterwards. -/
theorem flacSamples_error_poisons_witness :
    (⟨⟨32, 16, [], some 0⟩, Block.empty, 0, 0, true⟩ :
        FlacSamples).has_failed = true
    ∧ (⟨⟨32, 16, [], some 0⟩, Block.empty, 0, 0, true⟩ :
        FlacSamples).nextN 3
      = (List.replicate 3 .done,
         ⟨⟨32, 16, [], some 0⟩, Block.empty, 0, 0, true⟩) := by
  have h := flacSamples_error_poisons (flacSamplesNew ⟨32, 16, [], none⟩)
    ⟨⟨32, 16, [], some 0⟩, Block.empty, 0, 0, true⟩ .endOfInput (by decide)
  exact ⟨h.1, h.2 3⟩

/-- **C1**: over a sequence of successfully decoded blocks, `next` yields
the samples channel-interleaved in order — for each block, for each sample
index ascending, for each channel ascending, `block.sample(c, i)`; after
consuming the samples of the first `j` blocks the frame reader still holds
exactly the outcomes after the `j`-th; and a call whose cursor has not
exhausted the current block leaves the frame reader untouched (the next
block is requested only on exhaustion). -/
theorem flacSamples_next_interleaves (blocks : List Block) (sw bps : Nat)
    (hbuf : Option Nat) (hw : bps ≤ sw) (hv : ∀ b ∈ blocks, b.valid) :
    ((flacSamplesNew ⟨sw, bps, blocks.map .ok, hbuf⟩).nextN
        (totalLen blocks)).fst
      = (interleaveAll blocks).map (fun v => .yield (.ok v))
    ∧ (∀ j, j ≤ blocks.length →
        ((flacSamplesNew ⟨sw, bps, blocks.map .ok, hbuf⟩).nextN
            (totalLen (blocks.take j))).snd.frame_reader.outcomes
          = (blocks.drop j).map .ok)
    ∧ (∀ s : FlacSamples, s.has_failed = false →
        (s.channel + 1 < s.block.channels ∨ s.sample + 1 < s.block.size) →
        s.next.snd.frame_reader = s.frame_reader) := by
  refine ⟨?_, ?_, ?_⟩
  · exact (nextN_chain blocks []
      (flacSamplesNew ⟨sw, bps, blocks.map .ok, hbuf⟩) rfl
      ⟨Nat.zero_le _, Nat.zero_le _⟩ (show bps ≤ sw from hw)
      (by simp [flacSamplesNew]) hv).1
  · intro j hj
    have hsplit : blocks.map (Except.ok (ε := Error))
        = (blocks.take j).map Except.ok ++ (blocks.drop j).map Except.ok := by
      rw [← List.map_append, List.take_append_drop]
    have hchain := nextN_chain (blocks.take j) ((blocks.drop j).map .ok)
      (flacSamplesNew ⟨sw, bps, blocks.map .ok, hbuf⟩) rfl
      ⟨Nat.zero_le _, Nat.zero_le _⟩ (show bps ≤ sw from hw)
      (by exact hsplit)
      (fun b hb => hv b (List.mem_of_mem_take hb))
    rw [hchain.2.2.2.2]
  · intro s hf hlt
    by_cases hcc : s.channel + 1 < s.block.channels
    · rw [FlacSamples.next_mid_channel s hf hcc]
      exact FlacSamples.yieldAt_frame_reader _ _ _
    · rcases hlt with h | h
      · exact absurd h hcc
      · rw [FlacSamples.next_mid_row s hf (by omega) h]
        exact FlacSamples.yieldAt_frame_reader _ _ _

/-- Witness for C1 at a concrete two-block script. -/
theorem flacSamples_next_interleaves_witness :
    ((flacSamplesNew ⟨32, 16, [wb1, wb2].map .ok, none⟩).nextN
        (totalLen [wb1, wb2])).fst
      = (interleaveAll [wb1, wb2]).map (fun v => .yield (.ok v))
    ∧ ((flacSamplesNew ⟨32, 16, [wb1, wb2].map .ok, none⟩).nextN
        (totalLen ([wb1, wb2].take 1))).snd.frame_reader.outcomes
      = ([wb1, wb2].drop 1).map .ok
    ∧ (⟨⟨32, 16, [], none⟩, wb1, 0, 0, false⟩ :
        FlacSamples).next.snd.frame_reader = ⟨32, 16, [], none⟩ := by
  have h := flacSamples_next_interleaves [wb1, wb2] 32 16 none
    (by decide) (by decide)
  exact ⟨h.1, h.2.1 1 (by decide),
    h.2.2 ⟨⟨32, 16, [], none⟩, wb1, 0, 0, false⟩ rfl (Or.inl (by decide))⟩

theorem totalLen_const_channels (blocks : List Block) (C : Nat)
    (h : ∀ b ∈ blocks, b.channels = C) :
    totalLen blocks = C * (blocks.map Block.size).sum := by
  induction blocks with
  | nil => simp [totalLen]
  | cons b bs ih =>
      have hb := h b (by simp)
      have ihh := ih (fun b' hb' => h b' (by simp [hb']))
      simp only [totalLen, List.map_cons, List.sum_cons] at *
      rw [hb, ihh]
      ring

theorem length_interleaveAll (blocks : List Block) :
    (interleaveAll blocks).length = totalLen blocks := by
  induction blocks with
  | nil => rfl
  | cons b bs ih =>
      simp [interleaveAll, totalLen, Block.length_interleaved, ih]

/-- **C5**: for a valid stream whose stream info declares `N` total samples
over `C` channels (so the successfully decoded blocks all have `C` channels
and their sizes sum to `N`), iterating to exhaustion yields exactly `N * C`
interleaved samples: the first `N * C` calls each yield a sample, the next
call yields an end-of-input error instead of a sample, and every call after
that returns `None`. -/
theorem flacSamples_exact_count (si : StreamInfo) (blocks : List Block)
    (sw : Nat) (hbuf : Option Nat) (N C : Nat)
    (hN : si.samples = some N) (hC : si.channels = C) (hCpos : 0 < C)
    (hw : si.bits_per_sample ≤ sw)
    (hcons : ∀ b ∈ blocks, b.WF ∧ 0 < b.size ∧ b.channels = C)
    (hsum : (blocks.map Block.size).sum = N) :
    ((flacSamplesNew ⟨sw, si.bits_per_sample, blocks.map .ok, hbuf⟩).nextN
        (N * C)).fst
      = (interleaveAll blocks).map (fun v => .yield (.ok v))
    ∧ (interleaveAll blocks).length = N * C
    ∧ ((flacSamplesNew ⟨sw, si.bits_per_sample, blocks.map .ok, hbuf⟩).nextN
        (N * C)).snd.next.fst = .yield (.error .endOfInput)
    ∧ ∀ m, (((flacSamplesNew ⟨sw, si.bits_per_sample, blocks.map .ok,
          hbuf⟩).nextN (N * C)).snd.next.snd.nextN m).fst
        = List.replicate m .done := by
  have hvalid : ∀ b ∈ blocks, b.valid := fun b hb =>
    ⟨(hcons b hb).1, (hcons b hb).2.1, by
      show 0 < b.channels
      rw [(hcons b hb).2.2]
      exact hCpos⟩
  have htot : totalLen blocks = N * C := by
    rw [totalLen_const_channels blocks C (fun b hb => (hcons b hb).2.2), hsum]
    ring
  rw [← htot]
  set s1 := ((flacSamplesNew ⟨sw, si.bits_per_sample, blocks.map .ok,
    hbuf⟩).nextN (totalLen blocks)).snd with hs1def
  have hchain := nextN_chain blocks []
    (flacSamplesNew ⟨sw, si.bits_per_sample, blocks.map .ok, hbuf⟩) rfl
    ⟨Nat.zero_le _, Nat.zero_le _⟩ (show si.bits_per_sample ≤ sw from hw)
    (by simp [flacSamplesNew]) hvalid
  obtain ⟨hout, hf1, hex1, _, hfr1⟩ := hchain
  have hnil1 : s1.frame_reader.outcomes = [] := by rw [hfr1]
  have hwid1 : ¬ s1.frame_reader.sampleWidth
      < s1.frame_reader.bitsPerSample := by
    rw [hfr1]
    show ¬ sw < si.bits_per_sample
    omega
  have hread := FrameReader.read_next_nil s1.frame_reader s1.block.buf
    hwid1 hnil1
  have hnext1 : s1.next = (.yield (.error .endOfInput),
      { s1 with
        frame_reader := { s1.frame_reader with heldBuf := some s1.block.buf },
        block := Block.empty, channel := 0, sample := 0,
        has_failed := true }) := by
    rw [FlacSamples.next_transition s1 hf1 hex1.1 hex1.2, hread]
  refine ⟨hout, by rw [length_interleaveAll], ?_, ?_⟩
  · rw [hnext1]
  · intro m
    rw [hnext1, FlacSamples.nextN_of_failed _ rfl]

/-- Witness for C5 at a concrete stream: 3 samples over 2 channels in two
blocks. -/
theorem flacSamples_exact_count_witness :
    ((flacSamplesNew ⟨32, 16, [wb1, wb2].map .ok, none⟩).nextN
        (3 * 2)).fst
      = (interleaveAll [wb1, wb2]).map (fun v => .yield (.ok v))
    ∧ (interleaveAll [wb1, wb2]).length = 3 * 2
    ∧ ((flacSamplesNew ⟨32, 16, [wb1, wb2].map .ok, none⟩).nextN
        (3 * 2)).snd.next.fst = .yield (.error .endOfInput)
    ∧ (((flacSamplesNew ⟨32, 16, [wb1, wb2].map .ok,
          none⟩).nextN (3 * 2)).snd.next.snd.nextN 2).fst
        = List.replicate 2 .done := by
  have h := flacSamples_exact_count ⟨4096, 4096, 16, 16, 44100, 2, 16,
      some 3, 0⟩ [wb1, wb2] 32 none 3 2 rfl rfl (by decide) (by decide)
      (by decide) (by decide)
  exact ⟨h.1, h.2.1, h.2.2.1, h.2.2.2 2⟩

/-- **C6 counterexample**: with storage width 8 smaller than the stream's
16 bits per sample, the first call to `next` does return the width-mismatch
error, but the second call returns `None` — so it is not the case that
every call to `next` returns a width-mismatch error. -/
theorem flacSamples_width_counterexample :
    ((flacSamplesNew ⟨8, 16, [.ok wb1], none⟩).nextN 2).fst
        = [.yield (.error .widthMismatch), .done]
    ∧ ¬ (∀ r ∈ ((flacSamplesNew ⟨8, 16, [.ok wb1], none⟩).nextN 2).fst,
          r = .yield (.error .widthMismatch)) := by decide

/-- **C6 (amended)**: if the storage width is smaller than the stream's
bits per sample then every block decode attempt (`read_next`) fails with a
width-mismatch error; in particular the sample iterator's very first call
to `next` returns the width-mismatch error, and — being poisoned — every
subsequent call returns `None`, so a sample is never silently truncated. -/
theorem flacSamples_width_mismatch (sw bps : Nat)
    (outs : List (Except Error Block)) (hbuf : Option Nat) (h : sw < bps) :
    (flacSamplesNew ⟨sw, bps, outs, hbuf⟩).next.fst
        = .yield (.error .widthMismatch)
    ∧ (∀ m, ((flacSamplesNew ⟨sw, bps, outs, hbuf⟩).next.snd.nextN m).fst
        = List.replicate m .done)
    ∧ (∀ (fr : FrameReader) (buf : Nat), fr.sampleWidth < fr.bitsPerSample →
        (fr.read_next buf).fst = .error .widthMismatch) := by
  have hread : (flacSamplesNew ⟨sw, bps, outs, hbuf⟩).frame_reader.read_next
      (flacSamplesNew ⟨sw, bps, outs, hbuf⟩).block.buf
      = (.error .widthMismatch, ⟨sw, bps, outs, some Block.empty.buf⟩) :=
    FrameReader.read_next_width _ _ h
  have hnext : (flacSamplesNew ⟨sw, bps, outs, hbuf⟩).next
      = (.yield (.error .widthMismatch),
         ⟨⟨sw, bps, outs, some Block.empty.buf⟩, Block.empty, 0, 0, true⟩) := by
    rw [FlacSamples.next_transition _ rfl (Nat.zero_le _) (Nat.zero_le _),
      hread]
  refine ⟨by rw [hnext], ?_, ?_⟩
  · intro m
    rw [hnext, FlacSamples.nextN_of_failed _ rfl]
  · intro fr buf hlt
    rw [FrameReader.read_next_width fr buf hlt]

/-- Witness for the amended C6 at concrete widths 8 < 16. -/
theorem flacSamples_width_mismatch_witness :
    (flacSamplesNew ⟨8, 16, [.ok wb1], none⟩).next.fst
        = .yield (.error .widthMismatch)
    ∧ ((flacSamplesNew ⟨8, 16, [.ok wb1], none⟩).next.snd.nextN 2).fst
        = List.replicate 2 .done
    ∧ ((⟨8, 16, [.ok wb1], none⟩ : FrameReader).read_next 5).fst
        = .error .widthMismatch := by
  have h := flacSamples_width_mismatch 8 16 [.ok wb1] none (by decide)
  exact ⟨h.1, h.2.1 2, h.2.2 ⟨8, 16, [.ok wb1], none⟩ 5 (by decide)⟩

theorem FrameReader.read_next_ok_buf (fr : FrameReader) (buf : Nat)
    (b : Block) (h : (fr.read_next buf).fst = .ok b) : b.buf = buf := by
  by_cases hwlt : fr.sampleWidth < fr.bitsPerSample
  · rw [FrameReader.read_next_width fr buf hwlt] at h
    simp at h
  · rcases ho : fr.outcomes with _ | ⟨o, rest⟩
    · rw [FrameReader.read_next_nil fr buf hwlt ho] at h
      simp at h
    · cases o with
      | ok b0 =>
          rw [FrameReader.read_next_ok fr buf b0 rest hwlt ho] at h
          simp only [Except.ok.injEq] at h
          rw [← h]
      | error e =>
          rw [FrameReader.read_next_err fr buf e rest hwlt ho] at h
          simp at h

theorem FrameReader.read_next_error_heldBuf (fr : FrameReader) (buf : Nat)
    (e : Error) (h : (fr.read_next buf).fst = .error e) :
    (fr.read_next buf).snd.heldBuf = some buf := by
  by_cases hwlt : fr.sampleWidth < fr.bitsPerSample
  · rw [FrameReader.read_next_width fr buf hwlt]
  · rcases ho : fr.outcomes with _ | ⟨o, rest⟩
    · rw [FrameReader.read_next_nil fr buf hwlt ho]
    · cases o with
      | ok b0 =>
          rw [FrameReader.read_next_ok fr buf b0 rest hwlt ho] at h
          simp at h
      | error e' =>
          rw [FrameReader.read_next_err fr buf e' rest hwlt ho]

/-- **C8**: whenever the cursor has exhausted the current block (the only
situation in which a new block is requested), the iterator hands exactly
the current block's backing buffer to `read_next`, its own resulting frame
reader is the one `read_next` returns; on success the freshly installed
block reuses that same buffer, and on any error the iterator is left with
the empty block while the frame reader has reclaimed the buffer. -/
theorem flacSamples_buffer_handoff (s : FlacSamples)
    (hf : s.has_failed = false) (hc : s.block.channels ≤ s.channel + 1)
    (hs : s.block.size ≤ s.sample + 1) :
    s.next.snd.frame_reader = (s.frame_reader.read_next s.block.buf).snd
    ∧ (∀ b, (s.frame_reader.read_next s.block.buf).fst = .ok b →
        s.next.snd.block = b ∧ b.buf = s.block.buf)
    ∧ (∀ e, (s.frame_reader.read_next s.block.buf).fst = .error e →
        s.next.snd.block = Block.empty
        ∧ s.next.snd.frame_reader.heldBuf = some s.block.buf) := by
  have hnt := FlacSamples.next_transition s hf hc hs
  rcases hr : s.frame_reader.read_next s.block.buf with ⟨res, fr'⟩
  rw [hr] at hnt
  cases res with
  | ok b0 =>
      have hnt' : s.next = FlacSamples.yieldAt
          { s with frame_reader := fr', block := b0,
                   channel := 0, sample := 0 } 0 0 := by
        rw [hnt, hf]
      refine ⟨?_, ?_, ?_⟩
      · rw [hnt', FlacSamples.yieldAt_frame_reader]
      · intro b hb
        simp only [Except.ok.injEq] at hb
        subst hb
        constructor
        · rw [hnt', FlacSamples.yieldAt_block]
        · exact FrameReader.read_next_ok_buf s.frame_reader s.block.buf b0
            (by rw [hr])
      · intro e he
        simp at he
  | error e0 =>
      have hnt' : s.next = (.yield (.error e0),
          { s with frame_reader := fr', block := Block.empty,
                   channel := 0, sample := 0, has_failed := true }) := hnt
      refine ⟨?_, ?_, ?_⟩
      · rw [hnt']
      · intro b hb
        simp at hb
      · intro e he
        constructor
        · rw [hnt']
        · rw [hnt']
          show fr'.heldBuf = some s.block.buf
          have h2 := FrameReader.read_next_error_heldBuf s.frame_reader
            s.block.buf e0 (by rw [hr])
          rw [hr] at h2
          exact h2

/-- Witness for C8: a concrete exhausted state handing buffer 7 to the
frame reader, which installs the next block around that same buffer. -/
theorem flacSamples_buffer_handoff_witness :
    ((⟨⟨32, 16, [.ok wb2], none⟩, ⟨2, [[1, 2], [3, 4]], 7⟩, 1, 1, false⟩ :
        FlacSamples).next.snd.frame_reader
      = ((⟨32, 16, [.ok wb2], none⟩ :
        FrameReader).read_next 7).snd)
    ∧ ((⟨⟨32, 16, [.ok wb2], none⟩, ⟨2, [[1, 2], [3, 4]], 7⟩, 1, 1, false⟩ :
        FlacSamples).next.snd.block = { wb2 with buf := 7 }
       ∧ ({ wb2 with buf := 7 } : Block).buf = 7) := by
  have h := flacSamples_buffer_handoff
    ⟨⟨32, 16, [.ok wb2], none⟩, ⟨2, [[1, 2], [3, 4]], 7⟩, 1, 1, false⟩
    rfl (by decide) (by decide)
  exact ⟨h.1, h.2.1 { wb2 with buf := 7 } (by decide)⟩

theorem c9_transition (s : FlacSamples) (hscript : s.frame_reader.goodScript)
    (hf : s.has_failed = false) (hc : s.block.channels ≤ s.channel + 1)
    (hs2 : s.block.size ≤ s.sample + 1) :
    s.next.fst ≠ .panic ∧ s.next.snd.Safe
    ∧ (∀ v, s.next.fst = .yield (.ok v) →
        s.next.snd.channel < s.next.snd.block.channels
        ∧ s.next.snd.sample < s.next.snd.block.size) := by
  have hnt := FlacSamples.next_transition s hf hc hs2
  by_cases hwlt : s.frame_reader.sampleWidth < s.frame_reader.bitsPerSample
  · rw [FrameReader.read_next_width _ _ hwlt] at hnt
    replace hnt : s.next = (.yield (.error .widthMismatch),
        { s with
          frame_reader := { s.frame_reader with heldBuf := some s.block.buf },
          block := Block.empty, channel := 0, sample := 0,
          has_failed := true }) := hnt
    refine ⟨by rw [hnt]; simp, ?_, ?_⟩
    · rw [hnt]
      exact ⟨fun o ho => hscript o ho, Or.inl rfl⟩
    · intro v hv
      rw [hnt] at hv
      simp at hv
  · rcases ho : s.frame_reader.outcomes with _ | ⟨o, rest⟩
    · rw [FrameReader.read_next_nil _ _ hwlt ho] at hnt
      replace hnt : s.next = (.yield (.error .endOfInput),
          { s with
            frame_reader := { s.frame_reader with heldBuf := some s.block.buf },
            block := Block.empty, channel := 0, sample := 0,
            has_failed := true }) := hnt
      refine ⟨by rw [hnt]; simp, ?_, ?_⟩
      · rw [hnt]
        exact ⟨fun o ho' => hscript o ho', Or.inl rfl⟩
      · intro v hv
        rw [hnt] at hv
        simp at hv
    · have htail : ∀ o' ∈ rest, goodOutcome o' := fun o' ho' =>
        hscript o' (by rw [ho]; exact List.mem_cons_of_mem _ ho')
      cases o with
      | ok b0 =>
          have hgb : b0.valid := hscript (.ok b0) (by rw [ho]; exact List.mem_cons_self _ _)
          obtain ⟨hbw, hbs, hbc⟩ := hgb
          rw [FrameReader.read_next_ok _ _ b0 rest hwlt ho] at hnt
          replace hnt : s.next = FlacSamples.yieldAt
              { s with frame_reader := { s.frame_reader with outcomes := rest },
                       block := { b0 with buf := s.block.buf },
                       channel := 0, sample := 0 } 0 0 := by
            rw [hnt, hf]
          rw [FlacSamples.yieldAt_wf _ 0 0 (show b0.WF from hbw)
            (show 0 < b0.channels from hbc) (show 0 < b0.size from hbs)] at hnt
          refine ⟨by rw [hnt]; simp, ?_, ?_⟩
          · rw [hnt]
            exact ⟨fun o' ho' => htail o' ho',
              Or.inr (Or.inl ⟨hbc, hbs, hbw⟩)⟩
          · intro v hv
            rw [hnt]
            exact ⟨hbc, hbs⟩
      | error e =>
          rw [FrameReader.read_next_err _ _ e rest hwlt ho] at hnt
          replace hnt : s.next = (.yield (.error e),
              { s with
                frame_reader :=
                  { s.frame_reader with outcomes := rest, heldBuf := some s.block.buf },
                block := Block.empty, channel := 0, sample := 0,
                has_failed := true }) := hnt
          refine ⟨by rw [hnt]; simp, ?_, ?_⟩
          · rw [hnt]
            exact ⟨fun o' ho' => htail o' ho', Or.inl rfl⟩
          · intro v hv
            rw [hnt] at hv
            simp at hv

/-- **C9**: from any reachable state whose frame reader only hands out
well-formed nonempty blocks, `next` never performs the out-of-bounds access
in `block.sample` — and whenever it yields a sample value the cursor it
read from is strictly in bounds of the installed block.  The fresh iterator
built by `samples()` is such a state: its empty initial block has zero
channels, which forces a frame read before any sample is yielded. -/
theorem flacSamples_no_oob (s : FlacSamples) (hsafe : s.Safe) :
    s.next.fst ≠ .panic
    ∧ s.next.snd.Safe
    ∧ (∀ v, s.next.fst = .yield (.ok v) →
        s.next.snd.channel < s.next.snd.block.channels
        ∧ s.next.snd.sample < s.next.snd.block.size)
    ∧ (∀ fr : FrameReader, fr.goodScript → (flacSamplesNew fr).Safe) := by
  obtain ⟨hscript, hinv⟩ := hsafe
  have hfresh : ∀ fr : FrameReader, fr.goodScript → (flacSamplesNew fr).Safe :=
    fun fr hg => ⟨hg, Or.inr (Or.inr ⟨rfl, rfl, rfl, rfl⟩)⟩
  by_cases hf : s.has_failed = true
  · rw [FlacSamples.next_of_failed s hf]
    exact ⟨by simp, ⟨hscript, Or.inl hf⟩, by intro v hv; simp at hv, hfresh⟩
  · replace hf : s.has_failed = false := by
      revert hf; cases s.has_failed <;> simp
    rcases hinv with hfl | ⟨hc, hi, hw⟩ | ⟨hch0, hsz0, hc0, hs0⟩
    · rw [hf] at hfl
      cases hfl
    · by_cases hcc : s.channel + 1 < s.block.channels
      · have hnext : s.next = (.yield (.ok
            ((s.block.sample? (s.channel + 1) s.sample).getD 0)),
            { s with channel := s.channel + 1, sample := s.sample }) := by
          rw [FlacSamples.next_mid_channel s hf hcc,
            FlacSamples.yieldAt_wf s _ _ hw hcc hi]
        refine ⟨by rw [hnext]; simp, ?_, ?_, hfresh⟩
        · rw [hnext]
          exact ⟨fun o ho => hscript o ho, Or.inr (Or.inl ⟨hcc, hi, hw⟩)⟩
        · intro v hv
          rw [hnext]
          exact ⟨hcc, hi⟩
      · by_cases hii : s.sample + 1 < s.block.size
        · have hnext : s.next = (.yield (.ok
              ((s.block.sample? 0 (s.sample + 1)).getD 0)),
              { s with channel := 0, sample := s.sample + 1 }) := by
            rw [FlacSamples.next_mid_row s hf (by omega) hii,
              FlacSamples.yieldAt_wf s _ _ hw (by omega) hii]
          refine ⟨by rw [hnext]; simp, ?_, ?_, hfresh⟩
          · rw [hnext]
            exact ⟨fun o ho => hscript o ho,
              Or.inr (Or.inl ⟨show (0 : Nat) < s.block.channels by omega,
                hii, hw⟩)⟩
          · intro v hv
            rw [hnext]
            exact ⟨show (0 : Nat) < s.block.channels by omega, hii⟩
        · have ht := c9_transition s hscript hf (by omega) (by omega)
          exact ⟨ht.1, ht.2.1, ht.2.2, hfresh⟩
    · have ht := c9_transition s hscript hf (by omega) (by omega)
      exact ⟨ht.1, ht.2.1, ht.2.2, hfresh⟩

/-- Witness for C9 at a concrete safe mid-block state. -/
theorem flacSamples_no_oob_witness :
    ((⟨⟨32, 16, [.ok wb2], none⟩, wb1, 0, 0, false⟩ :
        FlacSamples).next.fst ≠ .panic)
    ∧ (⟨⟨32, 16, [.ok wb2], none⟩, wb1, 0, 0, false⟩ :
        FlacSamples).next.snd.Safe
    ∧ (flacSamplesNew ⟨32, 16, [.ok wb1, .ok wb2], none⟩).Safe := by
  have h := flacSamples_no_oob
    ⟨⟨32, 16, [.ok wb2], none⟩, wb1, 0, 0, false⟩ (by decide)
  exact ⟨h.1, h.2.1, h.2.2.2 ⟨32, 16, [.ok wb1, .ok wb2], none⟩ (by decide)⟩

end IteratorClaims

section ByteClaims

/-- Characterization of one metadata-block parse on a well-formed
non-stream-info header. -/
theorem readMetadataBlock_spec (hb l0 l1 l2 : Nat) (rest : List Nat)
    (len : Nat) (hlen : (l0 * 256 + l1) * 256 + l2 = len)
    (hge : ¬ rest.length < len) (ht : ¬ hb % 128 = 0) :
    readMetadataBlock (hb :: l0 :: l1 :: l2 :: rest)
      = .ok (decide (128 ≤ hb), .other (hb % 128) (rest.take len),
             rest.drop len) := by
  simp only [readMetadataBlock]
  rw [hlen, if_neg hge, if_neg ht]

/-- Characterization of one metadata-block parse on a stream-info header. -/
theorem readMetadataBlock_spec0 (hb l0 l1 l2 : Nat) (rest : List Nat)
    (len : Nat) (hlen : (l0 * 256 + l1) * 256 + l2 = len)
    (hge : ¬ rest.length < len) (ht : hb % 128 = 0) (si : StreamInfo)
    (hsi : readStreamInfoBody (rest.take len) = .ok si) :
    readMetadataBlock (hb :: l0 :: l1 :: l2 :: rest)
      = .ok (decide (128 ≤ hb), .streamInfo si, rest.drop len) := by
  simp only [readMetadataBlock]
  rw [hlen, if_neg hge, if_pos ht, hsi]

/-- A metadata block whose declared length exceeds the remaining bytes is
an end-of-input error. -/
theorem readMetadataBlock_spec_short (hb l0 l1 l2 : Nat) (rest : List Nat)
    (len : Nat) (hlen : (l0 * 256 + l1) * 256 + l2 = len)
    (hlt : rest.length < len) :
    readMetadataBlock (hb :: l0 :: l1 :: l2 :: rest)
      = .error .endOfInput := by
  simp only [readMetadataBlock]
  rw [hlen, if_pos hlt]

theorem readMetadataBlock_encodeOther (isLast : Bool) (t : Nat)
    (body rest : List Nat) (ht1 : 1 ≤ t) (ht2 : t < 128)
    (hlen : body.length < 2 ^ 24) :
    readMetadataBlock (encodeOther isLast t body ++ rest)
      = .ok (isLast, .other t body, rest) := by
  have hcons : encodeOther isLast t body ++ rest
      = ((if isLast then 128 else 0) + t) :: body.length / 65536 % 256 ::
        body.length / 256 % 256 :: body.length % 256 :: (body ++ rest) := rfl
  have hbt : ¬ ((if isLast then 128 else 0) + t) % 128 = 0 := by
    cases isLast <;> simp <;> omega
  rw [hcons, readMetadataBlock_spec _ _ _ _ _ body.length (by omega)
    (by simp [List.length_append]) hbt]
  rw [List.take_left' rfl, List.drop_left' rfl]
  cases isLast with
  | false =>
      rw [show ((if (false : Bool) then (128 : Nat) else 0) + t) = t from
        by simp]
      rw [decide_eq_false (show ¬ 128 ≤ t from by omega),
        Nat.mod_eq_of_lt ht2]
  | true =>
      rw [show ((if (true : Bool) then (128 : Nat) else 0) + t) = 128 + t
        from rfl]
      rw [decide_eq_true (show 128 ≤ 128 + t from by omega),
        show (128 + t) % 128 = t from by omega]

theorem readMetadataBlock_encodeStreamInfo (isLast : Bool)
    (siBody rest : List Nat) (hlen : siBody.length = 34) (si : StreamInfo)
    (hsi : readStreamInfoBody siBody = .ok si) :
    readMetadataBlock (encodeBlockHeader isLast 0 34 ++ (siBody ++ rest))
      = .ok (isLast, .streamInfo si, rest) := by
  have hcons : encodeBlockHeader isLast 0 34 ++ (siBody ++ rest)
      = ((if isLast then 128 else 0) + 0) :: (34 : Nat) / 65536 % 256 ::
        (34 : Nat) / 256 % 256 :: (34 : Nat) % 256 :: (siBody ++ rest) := rfl
  have hbt : ((if isLast then 128 else 0) + 0) % 128 = 0 := by
    cases isLast <;> simp
  rw [hcons, readMetadataBlock_spec0 _ _ _ _ _ 34 (by norm_num)
    (by simp [List.length_append]; omega) hbt si
    (by rw [List.take_left' hlen]; exact hsi)]
  rw [List.drop_left' hlen]
  cases isLast with
  | false =>
      rw [decide_eq_false (show ¬ 128 ≤ (if (false : Bool) then (128 : Nat)
        else 0) + 0 from by simp)]
  | true =>
      rw [decide_eq_true (show 128 ≤ (if (true : Bool) then (128 : Nat)
        else 0) + 0 from by simp)]

theorem readMetadataBlock_truncated (isLast : Bool) (t len : Nat)
    (shortBody : List Nat) (ht : t < 128) (hlen : len < 2 ^ 24)
    (hshort : shortBody.length < len) :
    readMetadataBlock (encodeBlockHeader isLast t len ++ shortBody)
      = .error .endOfInput := by
  have hcons : encodeBlockHeader isLast t len ++ shortBody
      = ((if isLast then 128 else 0) + t) :: len / 65536 % 256 ::
        len / 256 % 256 :: len % 256 :: shortBody := rfl
  rw [hcons, readMetadataBlock_spec_short _ _ _ _ _ len (by omega) hshort]

/-- **C3**: `FlacReader::new` fails with the format violation
`invalid stream header` whenever the first four input bytes, read as a
big-endian 32-bit value, differ from the signature `fLaC` (0x664C6143) —
whatever bytes follow, so before any metadata block or frame is read; and
corrupting the first signature byte (with the other three intact) always
produces such a mismatch. -/
theorem flacReader_new_bad_signature (b0 b1 b2 b3 : Nat) (rest : List Nat)
    (h : ((b0 * 256 + b1) * 256 + b2) * 256 + b3 ≠ 0x664c6143) :
    FlacReader.new (b0 :: b1 :: b2 :: b3 :: rest)
        = .error (.formatViolation "invalid stream header")
    ∧ (∀ c : Nat, c < 256 → c ≠ 0x66 →
        ((c * 256 + 0x4c) * 256 + 0x61) * 256 + 0x43 ≠ 0x664c6143) := by
  constructor
  · have hh : read_stream_header (b0 :: b1 :: b2 :: b3 :: rest)
        = .error (.formatViolation "invalid stream header") := by
      simp only [read_stream_header, read_be_u32]
      rw [if_pos h]
    unfold FlacReader.new
    rw [hh]
  · intro c hlt hne
    omega

/-- Witness for C3: a corrupted first signature byte. -/
theorem flacReader_new_bad_signature_witness :
    FlacReader.new (0x67 :: 0x4c :: 0x61 :: 0x43 :: [1, 2, 3])
        = .error (.formatViolation "invalid stream header")
    ∧ ((0x67 : Nat) * 256 + 0x4c) * 256 * 256 + 0x61 * 256 + 0x43
        ≠ 0x664c6143 :=
  ⟨(flacReader_new_bad_signature 0x67 0x4c 0x61 0x43 [1, 2, 3]
      (by norm_num)).1,
   by norm_num⟩

/-- **C4**: whenever the first metadata block is a (well-formed)
non-stream-info block, `FlacReader::new` fails with the format violation
`streaminfo block missing`, and no reader session is constructed. -/
theorem flacReader_new_streaminfo_missing (isLast : Bool) (t : Nat)
    (body rest : List Nat) (ht1 : 1 ≤ t) (ht2 : t < 128)
    (hlen : body.length < 2 ^ 24) :
    FlacReader.new (sigBytes ++ encodeOther isLast t body ++ rest)
      = .error (.formatViolation "streaminfo block missing") := by
  have hsig : read_stream_header
      (sigBytes ++ encodeOther isLast t body ++ rest)
      = .ok (encodeOther isLast t body ++ rest) := rfl
  simp only [FlacReader.new, hsig,
    readMetadataBlock_encodeOther isLast t body rest ht1 ht2 hlen]

/-- Witness for C4: a padding-style block (type 1) first. -/
theorem flacReader_new_streaminfo_missing_witness :
    FlacReader.new (sigBytes ++ encodeOther true 1 [9, 9] ++ [])
      = .error (.formatViolation "streaminfo block missing") :=
  flacReader_new_streaminfo_missing true 1 [9, 9] [] (by norm_num)
    (by norm_num) (by norm_num)

theorem encodeOther_length (isLast : Bool) (t : Nat) (body : List Nat) :
    (encodeOther isLast t body).length = 4 + body.length := by
  simp [encodeOther, encodeBlockHeader]
  omega

theorem encodeRestLast_length_ge : ∀ blks : List (Nat × List Nat),
    blks.length ≤ (encodeRestLast blks).length := by
  intro blks
  induction blks with
  | nil => simp [encodeRestLast]
  | cons p bs ih =>
      obtain ⟨t, body⟩ := p
      cases bs with
      | nil =>
          simp [encodeRestLast, encodeOther_length]
          omega
      | cons q qs =>
          show (q :: qs).length + 1
            ≤ (encodeOther false t body ++ encodeRestLast (q :: qs)).length
          rw [List.length_append, encodeOther_length]
          have h2 := ih
          omega

theorem encodeChainNL_length_ge : ∀ blks : List (Nat × List Nat),
    blks.length ≤ (encodeChainNL blks).length := by
  intro blks
  induction blks with
  | nil => simp [encodeChainNL]
  | cons p bs ih =>
      obtain ⟨t, body⟩ := p
      show bs.length + 1
        ≤ (encodeOther false t body ++ encodeChainNL bs).length
      rw [List.length_append, encodeOther_length]
      omega

theorem readRestBlocks_chain_ok : ∀ (blks : List (Nat × List Nat))
    (fuel : Nat) (extra : List Nat), blks ≠ [] → wfMeta blks →
    blks.length ≤ fuel →
    readRestBlocks fuel (encodeRestLast blks ++ extra)
      = .ok (blks.map (fun p => .other p.fst p.snd), extra) := by
  intro blks
  induction blks with
  | nil => intro fuel extra h; exact absurd rfl h
  | cons p bs ih =>
      intro fuel extra _ hwf hfl
      obtain ⟨t, body⟩ := p
      obtain ⟨ht1, ht2, hbl⟩ := hwf (t, body) (by simp)
      cases fuel with
      | zero => simp at hfl
      | succ fuel =>
          cases bs with
          | nil =>
              show readRestBlocks (fuel + 1)
                (encodeOther true t body ++ extra) = _
              simp only [readRestBlocks]
              rw [readMetadataBlock_encodeOther true t body extra ht1 ht2 hbl]
              rfl
          | cons q qs =>
              show readRestBlocks (fuel + 1)
                ((encodeOther false t body ++ encodeRestLast (q :: qs))
                  ++ extra) = _
              rw [List.append_assoc]
              simp only [readRestBlocks,
                readMetadataBlock_encodeOther false t body
                  (encodeRestLast (q :: qs) ++ extra) ht1 ht2 hbl,
                ih fuel extra (by simp) (fun p hp => hwf p (by simp [hp]))
                  (by simp at hfl ⊢; omega),
                List.map_cons]
              rfl

theorem readRestBlocks_chain_err : ∀ (blks : List (Nat × List Nat))
    (fuel : Nat) (tailBytes : List Nat) (e : Error), wfMeta blks →
    blks.length < fuel → readMetadataBlock tailBytes = .error e →
    readRestBlocks fuel (encodeChainNL blks ++ tailBytes) = .error e := by
  intro blks
  induction blks with
  | nil =>
      intro fuel tailBytes e _ hfl herr
      cases fuel with
      | zero => omega
      | succ fuel =>
          show readRestBlocks (fuel + 1) ([] ++ tailBytes) = _
          rw [List.nil_append]
          simp only [readRestBlocks]
          rw [herr]
  | cons p bs ih =>
      intro fuel tailBytes e hwf hfl herr
      obtain ⟨t, body⟩ := p
      obtain ⟨ht1, ht2, hbl⟩ := hwf (t, body) (by simp)
      cases fuel with
      | zero => simp at hfl
      | succ fuel =>
          show readRestBlocks (fuel + 1)
            ((encodeOther false t body ++ encodeChainNL bs) ++ tailBytes) = _
          rw [List.append_assoc]
          simp only [readRestBlocks,
            readMetadataBlock_encodeOther false t body
              (encodeChainNL bs ++ tailBytes) ht1 ht2 hbl,
            ih fuel tailBytes e (fun p hp => hwf p (by simp [hp]))
              (by simp at hfl ⊢; omega) herr]
          rfl

/-- **C10**: `FlacReader::new` eagerly reads and stores every metadata
block — not just the mandatory stream-info block — before returning: on a
well-formed input the constructed session stores all later blocks and its
remaining input is exactly the bytes after the metadata (the audio frames,
still unread); and if any later metadata block is malformed (here: its
declared body length exceeds the remaining bytes), construction fails with
that block's end-of-input error and no session is created. -/
theorem flacReader_new_eager_metadata (siBody : List Nat) (si : StreamInfo)
    (hsiLen : siBody.length = 34) (hsi : readStreamInfoBody siBody = .ok si)
    (blks : List (Nat × List Nat)) (hwf : wfMeta blks) :
    (blks ≠ [] → ∀ after : List Nat,
      FlacReader.new (sigBytes ++ encodeBlockHeader false 0 34 ++ siBody
          ++ encodeRestLast blks ++ after)
        = .ok ⟨si, blks.map (fun p => .other p.fst p.snd), after⟩)
    ∧ (∀ (t len : Nat) (shortBody : List Nat), t < 128 → len < 2 ^ 24 →
        shortBody.length < len →
        FlacReader.new (sigBytes ++ encodeBlockHeader false 0 34 ++ siBody
            ++ encodeChainNL blks ++ encodeBlockHeader true t len
            ++ shortBody)
          = .error .endOfInput) := by
  constructor
  · intro hne after
    have hsig0 : read_stream_header (sigBytes ++ encodeBlockHeader false 0 34
        ++ siBody ++ encodeRestLast blks ++ after)
        = .ok (encodeBlockHeader false 0 34 ++ siBody
            ++ encodeRestLast blks ++ after) := rfl
    have hsig : read_stream_header (sigBytes ++ encodeBlockHeader false 0 34
        ++ siBody ++ encodeRestLast blks ++ after)
        = .ok (encodeBlockHeader false 0 34
            ++ (siBody ++ (encodeRestLast blks ++ after))) := by
      rw [hsig0]
      simp only [List.append_assoc]
    have hfuel : blks.length ≤ (encodeRestLast blks ++ after).length := by
      have h1 := encodeRestLast_length_ge blks
      rw [List.length_append]
      omega
    simp only [FlacReader.new, hsig,
      readMetadataBlock_encodeStreamInfo false siBody
        (encodeRestLast blks ++ after) hsiLen si hsi,
      readRestBlocks_chain_ok blks (encodeRestLast blks ++ after).length
        after hne hwf hfuel]
    rfl
  · intro t len shortBody ht hlen hshort
    have hsig0 : read_stream_header (sigBytes ++ encodeBlockHeader false 0 34
        ++ siBody ++ encodeChainNL blks ++ encodeBlockHeader true t len
        ++ shortBody)
        = .ok (encodeBlockHeader false 0 34 ++ siBody
            ++ encodeChainNL blks ++ encodeBlockHeader true t len
            ++ shortBody) := rfl
    have hsig : read_stream_header (sigBytes ++ encodeBlockHeader false 0 34
        ++ siBody ++ encodeChainNL blks ++ encodeBlockHeader true t len
        ++ shortBody)
        = .ok (encodeBlockHeader false 0 34
            ++ (siBody ++ (encodeChainNL blks
              ++ (encodeBlockHeader true t len ++ shortBody)))) := by
      rw [hsig0]
      simp only [List.append_assoc]
    have herr := readMetadataBlock_truncated true t len shortBody ht hlen
      hshort
    have hfuel : blks.length < (encodeChainNL blks
        ++ (encodeBlockHeader true t len ++ shortBody)).length := by
      have h1 := encodeChainNL_length_ge blks
      rw [List.length_append, List.length_append]
      have h2 : (encodeBlockHeader true t len).length = 4 := rfl
      omega
    simp only [FlacReader.new, hsig,
      readMetadataBlock_encodeStreamInfo false siBody
        (encodeChainNL blks ++ (encodeBlockHeader true t len ++ shortBody))
        hsiLen si hsi,
      readRestBlocks_chain_err blks (encodeChainNL blks
          ++ (encodeBlockHeader true t len ++ shortBody)).length
        (encodeBlockHeader true t len ++ shortBody) .endOfInput hwf hfuel
        herr]
    rfl

set_option maxRecDepth 8000 in
/-- Witness for C10 at a concrete stream: one padding-style block after the
stream info, then (for the failure half) a truncated block. -/
theorem flacReader_new_eager_metadata_witness :
    FlacReader.new (sigBytes ++ encodeBlockHeader false 0 34 ++ wsiBody
        ++ encodeRestLast [(4, [7, 7])] ++ [9])
      = .ok ⟨⟨4096, 4096, 16, 16, 44100, 2, 16, some 3, 0⟩,
             [(4, [7, 7])].map (fun p => .other p.fst p.snd), [9]⟩
    ∧ FlacReader.new (sigBytes ++ encodeBlockHeader false 0 34 ++ wsiBody
        ++ encodeChainNL [(4, [7, 7])] ++ encodeBlockHeader true 3 9 ++ [1])
      = .error .endOfInput := by
  have h := flacReader_new_eager_metadata wsiBody
    ⟨4096, 4096, 16, 16, 44100, 2, 16, some 3, 0⟩ (by decide) (by decide)
    [(4, [7, 7])] (by decide)
  exact ⟨h.1 (by decide) [9], h.2 3 9 [1] (by decide) (by decide) (by decide)⟩

theorem applyOp_streaminfo : ∀ (ops : List ReaderOp) (r : FlacReader),
    (ops.foldl applyOp r).streaminfo = r.streaminfo := by
  intro ops
  induction ops with
  | nil => intro r; rfl
  | cons op ops ih =>
      intro r
      rw [List.foldl_cons, ih (applyOp r op)]
      cases op <;> rfl

/-- **C7**: the stream info of a constructed reader session is fixed for
its whole lifetime: `streaminfo()` returns the value stored at
construction, and after any sequence of operations — stream-info queries
and decoding steps, which only consume input — `streaminfo()` still
returns that same value. -/
theorem flacReader_streaminfo_const (bytes : List Nat) (r : FlacReader)
    (hr : FlacReader.new bytes = .ok r) (ops : List ReaderOp) :
    (ops.foldl applyOp r).streaminfo = r.streaminfo :=
  applyOp_streaminfo ops r

set_option maxRecDepth 8000 in
/-- Witness for C7: a concrete session, queried and advanced twice. -/
theorem flacReader_streaminfo_const_witness :
    (([ReaderOp.queryStreaminfo, ReaderOp.decode (fun l => l.drop 1),
        ReaderOp.decode (fun _ => [])].foldl applyOp
      ⟨⟨4096, 4096, 16, 16, 44100, 2, 16, some 3, 0⟩, [], []⟩).streaminfo)
      = (⟨⟨4096, 4096, 16, 16, 44100, 2, 16, some 3, 0⟩, [],
          []⟩ : FlacReader).streaminfo :=
  flacReader_streaminfo_const
    (sigBytes ++ encodeBlockHeader true 0 34 ++ wsiBody)
    ⟨⟨4096, 4096, 16, 16, 44100, 2, 16, some 3, 0⟩, [], []⟩ (by decide)
    [ReaderOp.queryStreaminfo, ReaderOp.decode (fun l => l.drop 1),
     ReaderOp.decode (fun _ => [])]

end ByteClaims

end Claxon
